import Mathlib

/-!
Shallow embedding of the BalkanId vault storage core: the deduplicating,
reference-counted blob store implemented in
`app/backend/internal/files/service.go` and `app/backend/internal/db/files.go`.

The relational catalog (tables `users`, `file_blobs`, `files`, `shares` of
`migrations/0001_init.sql`) and the object store are modelled as one explicit
state (`DB`); each Go repository method becomes a Lean function on that state,
translated statement by statement from its SQL text.  UUIDs are modelled as
natural numbers issued from a fresh-id counter, timestamps as integers issued
from a logical clock (one tick per row insert, matching the monotone `now()`
defaults).  Go `int64`/`int` values are modelled as `Int`; none of the claims
exercises 64-bit overflow.

Two library calls of the Go standard library are external to the repository
and are modelled as function parameters: `crypto/sha256` + hex encoding
(parameter `hash`, a pure function of the payload bytes, exactly as the Go
function is), and `http.DetectContentType` (parameter `detect`).  Payload
bytes are `List Nat`.
-/

namespace Vault

/-- Catalog row of table `file_blobs` (db.FileBlob). -/
structure Blob where
  id : Nat
  sha256 : String
  sizeBytes : Int
  mimeDetected : String
  storageKey : String
  refCount : Int
  createdAt : Int
  deriving DecidableEq

/-- Catalog row of table `files` (db.FileRecord). -/
structure FileRec where
  id : Nat
  ownerId : Nat
  blobId : Nat
  filenameOriginal : String
  filenameNormalized : String
  mimeDeclared : Option String
  sizeBytesOriginal : Int
  uploadedAt : Int
  isDeleted : Bool
  tags : List String
  downloadCount : Int
  deriving DecidableEq

/-- Catalog row of table `shares` (db.ShareRecord). -/
structure Share where
  id : Nat
  fileId : Nat
  visibility : String
  token : Option String
  expiresAt : Option Int
  deriving DecidableEq

/-- Catalog row of table `users` (db.User). -/
structure User where
  id : Nat
  email : String
  name : Option String
  role : String
  quotaBytes : Int
  deriving DecidableEq

/-- One object held by the Supabase bucket: storage key, bytes, content type. -/
structure StoredObject where
  key : String
  data : List Nat
  contentType : String
  deriving DecidableEq

/-- The whole mutable state: the four catalog tables, the object store,
the fresh-id counter standing in for `gen_random_uuid()` and the logical
clock standing in for `now()` column defaults. -/
structure DB where
  users : List User
  blobs : List Blob
  files : List FileRec
  shares : List Share
  store : List StoredObject
  nextId : Nat
  clock : Int
  deriving DecidableEq

def emptyDB : DB :=
  { users := [], blobs := [], files := [], shares := [], store := [],
    nextId := 0, clock := 0 }

/-- Database-layer failure: the two pg error outcomes the modelled queries can
produce — a uniqueness violation on insert and `pgx.ErrNoRows` on a
`QueryRow` that matches nothing. -/
inductive DbErr where
  | uniqueViolation
  | noRows
  deriving DecidableEq

/-- Service-layer failure, the error outcomes of files.Service methods. -/
inductive SvcErr where
  | fileTooLarge (filename : String)
  | quotaExceeded
  | db (e : DbErr)
  | storageDeleteFailed
  deriving DecidableEq

deriving instance DecidableEq for Except

/-! ### Object store (internal/storage/supabase.go)

The Supabase client uploads with `x-upsert: true` (replace on same key) and
deletes by key.  Only success paths are state changes; a failing delete is
modelled at the call site in `deleteFile` by the `storageDeleteOk` flag. -/

def storagePut (st : DB) (key : String) (data : List Nat) (contentType : String) : DB :=
  { st with store := st.store.filter (fun o => o.key != key) ++ [⟨key, data, contentType⟩] }

def storageDeleteKey (st : DB) (key : String) : DB :=
  { st with store := st.store.filter (fun o => o.key != key) }

/-! ### Blob catalog (internal/db/files.go) -/

/-- GetBlobByHash: `select ... from file_blobs where sha256 = $1`;
`ErrNoRows` is mapped to `nil, nil` by the Go code, hence `Option`. -/
def getBlobByHash (st : DB) (hash : String) : Option Blob :=
  st.blobs.find? (fun b => b.sha256 == hash)

/-- InsertBlob: `insert into file_blobs (... ref_count) values (..., 1)`.
The `unique` constraint on `sha256` (0001_init.sql) makes the insert fail
with a uniqueness violation when a row with the digest already exists. -/
def insertBlob (st : DB) (hash : String) (size : Int) (mime storageKey : String) :
    Except DbErr (Blob × DB) :=
  if st.blobs.any (fun b => b.sha256 == hash) then
    .error .uniqueViolation
  else
    let blob : Blob :=
      { id := st.nextId, sha256 := hash, sizeBytes := size, mimeDetected := mime,
        storageKey := storageKey, refCount := 1, createdAt := st.clock }
    .ok (blob, { st with blobs := st.blobs ++ [blob],
                         nextId := st.nextId + 1, clock := st.clock + 1 })

/-- IncrementBlobRef: `update file_blobs set ref_count = ref_count + 1 where id = $1`. -/
def incrementBlobRef (st : DB) (blobId : Nat) : DB :=
  { st with blobs := st.blobs.map (fun b =>
      if b.id == blobId then { b with refCount := b.refCount + 1 } else b) }

/-- DecrementBlobRef: `update file_blobs set ref_count = ref_count - 1 where
id = $1 returning ref_count`.  The update is unconditional — there is no
guard on the current count and the schema has no check constraint — and the
new count of the matched row is returned; `ErrNoRows` when no row has the id. -/
def decrementBlobRef (st : DB) (blobId : Nat) : Except DbErr (Int × DB) :=
  match st.blobs.find? (fun b => b.id == blobId) with
  | none => .error .noRows
  | some b =>
      .ok (b.refCount - 1,
        { st with blobs := st.blobs.map (fun c =>
            if c.id == blobId then { c with refCount := c.refCount - 1 } else c) })

/-- DeleteBlob: `delete from file_blobs where id = $1`. -/
def deleteBlob (st : DB) (blobId : Nat) : DB :=
  { st with blobs := st.blobs.filter (fun b => b.id != blobId) }

/-! ### File catalog (internal/db/files.go) -/

/-- InsertFile: `insert into files (...) returning id, uploaded_at,
download_count`; the generated id and timestamp are written back into the
record, the remaining columns are stored as given. -/
def insertFile (st : DB) (record : FileRec) : FileRec × DB :=
  let r := { record with id := st.nextId, uploadedAt := st.clock, downloadCount := 0 }
  (r, { st with files := st.files ++ [r], nextId := st.nextId + 1, clock := st.clock + 1 })

/-- MarkFileDeleted: `update files set is_deleted = true where id = $1 and
owner_id = $2 and is_deleted = false returning ...` (the returned column list
omits `is_deleted`, so the Go record keeps its zero value `false`). -/
def markFileDeleted (st : DB) (fileId ownerId : Nat) : Option FileRec × DB :=
  match st.files.find? (fun f => f.id == fileId && f.ownerId == ownerId && !f.isDeleted) with
  | none => (none, st)
  | some f =>
      (some f,
       { st with files := st.files.map (fun g =>
           if g.id == fileId && g.ownerId == ownerId && !g.isDeleted then
             { g with isDeleted := true } else g) })

/-- GetFileWithBlob: single live owned file joined with its blob;
`ErrNoRows` mapped to `nil, nil`. -/
def getFileWithBlob (st : DB) (fileId ownerId : Nat) : Option (FileRec × Blob) :=
  match st.files.find? (fun f => f.id == fileId && f.ownerId == ownerId && !f.isDeleted) with
  | none => none
  | some f => (st.blobs.find? (fun b => b.id == f.blobId)).map (fun b => (f, b))

/-- IncrementDownload: `update files set download_count = download_count + 1`. -/
def incrementDownload (st : DB) (fileId : Nat) : DB :=
  { st with files := st.files.map (fun f =>
      if f.id == fileId then { f with downloadCount := f.downloadCount + 1 } else f) }

/-! ### Share catalog (internal/db/files.go) -/

/-- UpsertShare: `insert into shares ... on conflict (file_id) do update set
visibility, token, expires_at`. -/
def upsertShare (st : DB) (fileId : Nat) (visibility : String)
    (token : Option String) (expires : Option Int) : Share × DB :=
  match st.shares.find? (fun s => s.fileId == fileId) with
  | some s =>
      let s2 := { s with visibility := visibility, token := token, expiresAt := expires }
      (s2, { st with shares := st.shares.map (fun t =>
               if t.fileId == fileId then
                 { t with visibility := visibility, token := token, expiresAt := expires }
               else t) })
  | none =>
      let s2 : Share :=
        { id := st.nextId, fileId := fileId, visibility := visibility,
          token := token, expiresAt := expires }
      (s2, { st with shares := st.shares ++ [s2], nextId := st.nextId + 1 })

/-- DeleteShare: `delete from shares where file_id = $1` (idempotent). -/
def deleteShare (st : DB) (fileId : Nat) : DB :=
  { st with shares := st.shares.filter (fun s => s.fileId != fileId) }

/-! ### Listing filters (db.FileFilter and the dynamically composed WHERE) -/

structure FileFilter where
  search : Option String
  mimeTypes : List String
  minSize : Option Int
  maxSize : Option Int
  tags : List String
  uploaderName : Option String
  uploaderId : Option Nat
  uploadedFrom : Option Int
  uploadedTo : Option Int
  deriving DecidableEq

/-- The everything-unset filter (a nil `*db.FileFilter` adds no conditions,
and so does a filter with every field empty). -/
def FileFilter.empty : FileFilter :=
  { search := none, mimeTypes := [], minSize := none, maxSize := none,
    tags := [], uploaderName := none, uploaderId := none,
    uploadedFrom := none, uploadedTo := none }

/-- Case mapping of `strings.ToLower`, written over the character list so the
kernel can evaluate it. -/
def lowerStr (s : String) : String := String.mk (s.data.map Char.toLower)

/-- Substring test for the `LIKE '%pat%'` patterns the Go code builds. -/
def strStartsWith : List Char → List Char → Bool
  | _, [] => true
  | [], _ :: _ => false
  | h :: t, p :: ps => h == p && strStartsWith t ps

def strContains (hay pat : List Char) : Bool :=
  match hay with
  | [] => pat.isEmpty
  | _ :: t => strStartsWith hay pat || strContains t pat

def likeContains (hay pat : String) : Bool := strContains hay.data pat.data

/-- The optional WHERE conditions common to ListFiles and ListPublicFiles:
normalized-name LIKE, coalesced mime membership, size bounds, jsonb tag
containment `f.tags @> $n`, and the uploaded-at window.  Each condition is
added only when its filter field is set, exactly as the Go code appends
clauses. -/
def fileFilterWhere (filter : Option FileFilter) (f : FileRec) (b : Blob) : Bool :=
  match filter with
  | none => true
  | some fl =>
      (match fl.search with
       | none => true
       | some s => s == "" || likeContains f.filenameNormalized (lowerStr s)) &&
      (fl.mimeTypes.isEmpty || fl.mimeTypes.contains (f.mimeDeclared.getD b.mimeDetected)) &&
      (match fl.minSize with | none => true | some m => m ≤ f.sizeBytesOriginal) &&
      (match fl.maxSize with | none => true | some m => f.sizeBytesOriginal ≤ m) &&
      (fl.tags.isEmpty || fl.tags.all (fun t => f.tags.contains t)) &&
      (match fl.uploadedFrom with | none => true | some t => t ≤ f.uploadedAt) &&
      (match fl.uploadedTo with | none => true | some t => f.uploadedAt ≤ t)

/-- Uploader conditions, only composed by ListPublicFiles. -/
def uploaderWhere (filter : Option FileFilter) (u : User) : Bool :=
  match filter with
  | none => true
  | some fl =>
      (match fl.uploaderName with
       | none => true
       | some nm =>
           nm == "" ||
           ((match u.name with
             | some n => likeContains (lowerStr n) (lowerStr nm)
             | none => false) ||
            likeContains (lowerStr u.email) (lowerStr nm))) &&
      (match fl.uploaderId with | none => true | some uid => u.id == uid)

/-- Descending `order by f.uploaded_at desc`, via a structural insertion sort
keyed on the comparison the query sorts with. -/
def insertSorted (le : α → α → Bool) (x : α) : List α → List α
  | [] => [x]
  | y :: ys => if le x y then x :: y :: ys else y :: insertSorted le x ys

def sortByKey (le : α → α → Bool) : List α → List α
  | [] => []
  | x :: xs => insertSorted le x (sortByKey le xs)

/-- ListFiles: owner-scoped listing.  Join of `files` with `file_blobs`,
WHERE `f.owner_id = $1 and f.is_deleted = false` plus the optional filter
conditions, ordered by upload time descending, `limit 200`; the second
component is the unlimited match count the separate count query returns. -/
def listFiles (st : DB) (ownerId : Nat) (filter : Option FileFilter) :
    List (FileRec × Blob) × Nat :=
  let rows := st.files.flatMap (fun f =>
    (st.blobs.filter (fun b => b.id == f.blobId)).map (fun b => (f, b)))
  let matching := rows.filter (fun r =>
    r.1.ownerId == ownerId && !r.1.isDeleted && fileFilterWhere filter r.1 r.2)
  ((sortByKey (fun r1 r2 => r2.1.uploadedAt ≤ r1.1.uploadedAt) matching).take 200,
   matching.length)

/-- The WHERE clause of ListPublicFiles applied to one joined row. -/
def publicWhere (now : Int) (filter : Option FileFilter)
    (s : Share) (f : FileRec) (b : Blob) (u : User) : Bool :=
  !f.isDeleted &&
  s.visibility == "PUBLIC" &&
  (match s.expiresAt with | none => true | some t => now < t) &&
  (match s.token with | none => false | some tok => tok != "") &&
  fileFilterWhere filter f b &&
  uploaderWhere filter u

/-- The joined row set of ListPublicFiles:
`from shares s join files f on s.file_id = f.id join file_blobs b on
f.blob_id = b.id join users u on u.id = f.owner_id where ...`. -/
def publicRows (st : DB) (now : Int) (filter : Option FileFilter) :
    List (Share × FileRec × Blob × User) :=
  (st.shares.flatMap (fun s =>
    (st.files.filter (fun f => f.id == s.fileId)).flatMap (fun f =>
      (st.blobs.filter (fun b => b.id == f.blobId)).flatMap (fun b =>
        (st.users.filter (fun u => u.id == f.ownerId)).map (fun u => (s, f, b, u)))))
  ).filter (fun r => publicWhere now filter r.1 r.2.1 r.2.2.1 r.2.2.2)

/-- ListPublicFiles: publicly shared files, ordered by upload time
descending, `limit 200`, plus the unlimited total of the count query. -/
def listPublicFiles (st : DB) (now : Int) (filter : Option FileFilter) :
    List (FileRec × Blob) × Nat :=
  let matching := publicRows st now filter
  (((sortByKey (fun r1 r2 => r2.2.1.uploadedAt ≤ r1.2.1.uploadedAt) matching).take 200).map
     (fun r => (r.2.1, r.2.2.1)),
   matching.length)

/-- GetFileByShareToken: `where s.token = $1 and (s.expires_at is null or
s.expires_at > now()) and f.is_deleted = false` over the shares-files-blobs
join; `none` stands for the `ErrNoRows` outcome. -/
def getFileByShareToken (st : DB) (now : Int) (token : String) :
    Option (FileRec × Blob × Share) :=
  ((st.shares.flatMap (fun s =>
      (st.files.filter (fun f => f.id == s.fileId)).flatMap (fun f =>
        (st.blobs.filter (fun b => b.id == f.blobId)).map (fun b => (s, f, b))))
   ).find? (fun r =>
      (match r.1.token with | some t => t == token | none => false) &&
      (match r.1.expiresAt with | none => true | some t => now < t) &&
      !r.2.1.isDeleted)
  ).map (fun r => (r.2.1, r.2.2, r.1))

/-- StorageUsage.  First query: `sum(size_bytes_original)` over the owner's
live files.  Second query: `select coalesce(sum(distinct b.size_bytes), 0)`
over the live files joined with their blobs — note the SQL sums the
*distinct size values*, not one size per distinct blob. -/
def storageUsage (st : DB) (ownerId : Nat) : Int × Int :=
  let live := st.files.filter (fun f => f.ownerId == ownerId && !f.isDeleted)
  let original := (live.map (fun f => f.sizeBytesOriginal)).sum
  let joinedSizes := live.filterMap (fun f =>
    (st.blobs.find? (fun b => b.id == f.blobId)).map (fun b => b.sizeBytes))
  (original, joinedSizes.dedup.sum)

/-! ### Vault service (internal/files/service.go) -/

/-- files.UploadInput.  The `Size` field of the Go struct is never read by
`Upload` (which measures `len(data)` after `io.ReadAll`), so it is omitted. -/
structure UploadInput where
  filename : String
  declaredMIME : String
  data : List Nat
  deriving DecidableEq

/-- files.UploadResult. -/
structure UploadResult where
  file : FileRec
  blob : Blob
  isNew : Bool
  deriving DecidableEq

/-- sampleBytes: the first 512 bytes handed to the sniffer. -/
def sampleBytes (data : List Nat) : List Nat :=
  if data.length < 512 then data else data.take 512

/-- strings.EqualFold, modelled as equality after case mapping. -/
def eqFold (a b : String) : Bool := lowerStr a == lowerStr b

/-- readAndHash: read the payload, hash it, sniff a content type from the
first 512 bytes, and prefer the declared type only when the sniff produced
the generic fallback.  `hash` and `detect` stand for `crypto/sha256`+hex and
`http.DetectContentType`. -/
def readAndHash (hash detect : List Nat → String) (data : List Nat)
    (declaredMIME : String) : List Nat × String × String :=
  let hashHex := hash data
  let detected := detect (sampleBytes data)
  let detected :=
    if declaredMIME != "" && !eqFold declaredMIME detected then
      (if detected == "application/octet-stream" then declaredMIME else detected)
    else detected
  (data, hashHex, detected)

/-- buildStorageKey: `sha256/<h[:2]>/<h[2:4]>/<h>`, or `sha256/<h>` for a
hash shorter than four characters. -/
def buildStorageKey (hash : String) : String :=
  if hash.length < 4 then "sha256/" ++ hash
  else "sha256/" ++ hash.take 2 ++ "/" ++ ((hash.drop 2).take 2) ++ "/" ++ hash

/-- The novel-content branch of Upload (service.go lines 85–93): write the
bytes at the digest-derived key, then insert the catalog row; an insert
failure — the uniqueness violation of a concurrent duplicate-digest insert
included — is returned as-is, with the bytes already written. -/
def storeAndInsertBlob (hashHex : String) (size : Int) (mime : String)
    (data : List Nat) (st : DB) : Except DbErr (Blob × Bool) × DB :=
  let key := buildStorageKey hashHex
  let st1 := storagePut st key data mime
  match insertBlob st1 hashHex size mime key with
  | .error e => (.error e, st1)
  | .ok (blob, st2) => (.ok (blob, true), st2)

/-- The blob-resolution step of Upload (service.go lines 78–99): look up by
digest; absent means store-then-insert (`isNew = true`), found means
increment the row and bump the in-memory count (`isNew = false`). -/
def resolveBlob (hashHex : String) (size : Int) (mime : String)
    (data : List Nat) (st : DB) : Except DbErr (Blob × Bool) × DB :=
  match getBlobByHash st hashHex with
  | none => storeAndInsertBlob hashHex size mime data st
  | some blob =>
      (.ok ({ blob with refCount := blob.refCount + 1 }, false),
       incrementBlobRef st blob.id)

/-- The per-input loop of Upload (service.go lines 63–120), carrying the
running usage and the accumulated results.  Any failure returns immediately
— the error aborts the rest of the batch — while the state keeps every
mutation already applied. -/
def uploadLoop (hash detect : List Nat → String) (maxUploadBytes : Int)
    (owner : User) : List UploadInput → Int → List UploadResult → DB →
    Except SvcErr (List UploadResult) × DB
  | [], _, acc, st => (.ok acc, st)
  | input :: rest, originalUsage, acc, st =>
      let rh := readAndHash hash detect input.data input.declaredMIME
      let data := rh.1
      let hashHex := rh.2.1
      let detectedMIME := rh.2.2
      let size : Int := data.length
      if maxUploadBytes > 0 && size > maxUploadBytes then
        (.error (.fileTooLarge input.filename), st)
      else if owner.quotaBytes > 0 && originalUsage + size > owner.quotaBytes then
        (.error .quotaExceeded, st)
      else
        match resolveBlob hashHex size detectedMIME data st with
        | (.error e, st1) => (.error (.db e), st1)
        | (.ok (blob, isNew), st1) =>
            let record : FileRec :=
              { id := 0, ownerId := owner.id, blobId := blob.id,
                filenameOriginal := input.filename,
                filenameNormalized := lowerStr input.filename,
                mimeDeclared :=
                  if input.declaredMIME != "" then some input.declaredMIME else none,
                sizeBytesOriginal := size, uploadedAt := 0, isDeleted := false,
                tags := [], downloadCount := 0 }
            let ins := insertFile st1 record
            uploadLoop hash detect maxUploadBytes owner rest
              (originalUsage + size)
              (acc ++ [{ file := ins.1, blob := blob, isNew := isNew }]) ins.2

/-- Service.Upload: compute the owner's usage once, then run the per-input
loop with that snapshot as the running total. -/
def upload (hash detect : List Nat → String) (maxUploadBytes : Int)
    (owner : User) (inputs : List UploadInput) (st : DB) :
    Except SvcErr (List UploadResult) × DB :=
  uploadLoop hash detect maxUploadBytes owner inputs (storageUsage st owner.id).1 [] st

/-- Service.DeleteFile (service.go lines 225–252): resolve, soft-delete,
decrement; on a count ≤ 0 delete the catalog row and then the physical
bytes — a failing physical delete (`storageDeleteOk = false`, the external
store call erring) returns the error with the catalog row already gone and
the share row untouched; otherwise delete the share (result discarded) and
return the file. -/
def deleteFile (storageDeleteOk : Bool) (st : DB) (fileId ownerId : Nat) :
    Except SvcErr (Option FileRec) × DB :=
  match getFileWithBlob st fileId ownerId with
  | none => (.ok none, st)
  | some fwb =>
      let md := markFileDeleted st fileId ownerId
      match decrementBlobRef md.2 fwb.2.id with
      | .error e => (.error (.db e), md.2)
      | .ok (refCount, st2) =>
          if refCount ≤ 0 then
            let st3 := deleteBlob st2 fwb.2.id
            if storageDeleteOk then
              let st4 := storageDeleteKey st3 fwb.2.storageKey
              (.ok (some fwb.1), deleteShare st4 fileId)
            else
              (.error .storageDeleteFailed, st3)
          else
            (.ok (some fwb.1), deleteShare st2 fileId)

/-- Service.StorageStats: a pass-through to StorageUsage. -/
def storageStats (st : DB) (ownerId : Nat) : Int × Int :=
  storageUsage st ownerId

/-- Modelled from the spec (§3 Owner usage, §4.5 StorageStats, glossary
"Dedup usage"), for comparison with `storageUsage`: "deduplicated usage" is
the sum of sizes of *distinct blobs* referenced by the owner's live files —
dedup over blob identity, each distinct blob's size counted exactly once. -/
def dedupUsageSpec (st : DB) (ownerId : Nat) : Int :=
  let live := st.files.filter (fun f => f.ownerId == ownerId && !f.isDeleted)
  let blobIds := (live.map (fun f => f.blobId)).dedup
  (blobIds.filterMap (fun bid =>
    (st.blobs.find? (fun b => b.id == bid)).map (fun b => b.sizeBytes))).sum

/-! ### Concrete fixtures used by witnesses and counterexamples -/

/-- Toy stand-in digest for concrete evaluations: decimal digits of the
bytes, dot-separated (injective, deterministic — the properties `sha256`
provides that the claims rely on). -/
def hashFx (data : List Nat) : String :=
  String.mk (data.flatMap (fun n => Nat.toDigits 10 n ++ ['.']))

/-- Toy stand-in sniffer returning the generic fallback. -/
def detectFx (_ : List Nat) : String := "application/octet-stream"

def ownerFx : User :=
  { id := 100, email := "owner@example.com", name := none, role := "USER", quotaBytes := 0 }

def ownerQuotaFx : User := { ownerFx with quotaBytes := 10 }

def blobFx0 : Blob :=
  { id := 0, sha256 := "d0", sizeBytes := 5, mimeDetected := "m", storageKey := "k0",
    refCount := 1, createdAt := 0 }

def blobFx1 : Blob :=
  { id := 1, sha256 := "d1", sizeBytes := 5, mimeDetected := "m", storageKey := "k1",
    refCount := 1, createdAt := 0 }

def fileFx0 : FileRec :=
  { id := 2, ownerId := 7, blobId := 0, filenameOriginal := "a", filenameNormalized := "a",
    mimeDeclared := none, sizeBytesOriginal := 5, uploadedAt := 0, isDeleted := false,
    tags := [], downloadCount := 0 }

def fileFx1 : FileRec :=
  { fileFx0 with
      id := 3
      blobId := 1
      filenameOriginal := "b"
      filenameNormalized := "b"
      uploadedAt := 1 }

/-- Owner 7 with two live files referencing two *distinct* blobs that happen
to have the same size (5 bytes each). -/
def dbTwoBlobsSameSize : DB :=
  { emptyDB with
      blobs := [blobFx0, blobFx1]
      files := [fileFx0, fileFx1]
      nextId := 4
      clock := 2 }

/-- A catalog already holding the digest `"d0"` — the state the novel-content
branch of Upload sees when a concurrent insert landed after its lookup. -/
def dbRace : DB := { emptyDB with blobs := [blobFx0], nextId := 1 }

/-- A blob whose reference count has already reached zero. -/
def dbZeroRef : DB := { emptyDB with blobs := [{ blobFx0 with refCount := 0 }], nextId := 1 }

/-- One live file on one singly-referenced blob (owner 7). -/
def dbOneFile : DB := { emptyDB with blobs := [blobFx0], files := [fileFx0], nextId := 4 }

/-- A batch whose second input breaks the 10-byte quota and whose third is
small enough to fit. -/
def batchFx : List UploadInput :=
  [ { filename := "a.txt", declaredMIME := "", data := [1, 2, 3] },
    { filename := "b.txt", declaredMIME := "", data := [4, 4, 4, 4, 4, 4, 4, 4, 4] },
    { filename := "c.txt", declaredMIME := "", data := [5, 5] } ]

def userFx7 : User :=
  { id := 7, email := "u@example.com", name := some "U", role := "USER", quotaBytes := 0 }

def sharePrivFx : Share :=
  { id := 10, fileId := 2, visibility := "PRIVATE", token := some "tok", expiresAt := none }

def sharePubFx : Share :=
  { id := 11, fileId := 3, visibility := "PUBLIC", token := some "tok2", expiresAt := some 50 }

def dbSharesFx : DB :=
  { emptyDB with
      users := [userFx7]
      blobs := [blobFx0, blobFx1]
      files := [fileFx0, fileFx1]
      shares := [sharePrivFx, sharePubFx]
      nextId := 12
      clock := 2 }

def inputFx : UploadInput := { filename := "A.txt", declaredMIME := "", data := [1, 2] }

/-! ### Helper lemmas -/

theorem mem_insertSorted {le : α → α → Bool} {x a : α} {l : List α} :
    x ∈ insertSorted le a l ↔ x = a ∨ x ∈ l := by
  induction l with
  | nil => simp [insertSorted]
  | cons y ys ih =>
      simp only [insertSorted]
      split
      · simp
      · simp only [List.mem_cons, ih]
        tauto

theorem mem_sortByKey {le : α → α → Bool} {x : α} {l : List α} :
    x ∈ sortByKey le l ↔ x ∈ l := by
  induction l with
  | nil => simp [sortByKey]
  | cons y ys ih => simp [sortByKey, mem_insertSorted, ih]

theorem length_insertSorted (le : α → α → Bool) (a : α) (l : List α) :
    (insertSorted le a l).length = l.length + 1 := by
  induction l with
  | nil => simp [insertSorted]
  | cons y ys ih =>
      simp only [insertSorted]
      split <;> simp [ih]

theorem length_sortByKey (le : α → α → Bool) (l : List α) :
    (sortByKey le l).length = l.length := by
  induction l with
  | nil => rfl
  | cons y ys ih => simp [sortByKey, length_insertSorted, ih]

theorem find?_eq_some_of_unique {l : List α} {p : α → Bool} {x : α}
    (hx : x ∈ l) (hpx : p x = true) (huniq : ∀ y ∈ l, p y = true → y = x) :
    l.find? p = some x := by
  induction l with
  | nil => cases hx
  | cons a t ih =>
      by_cases hpa : p a = true
      · have ha : a = x := huniq a (List.mem_cons_self a t) hpa
        rw [List.find?_cons_of_pos _ hpa, ha]
      · have hax : x ∈ t := by
          rcases List.mem_cons.mp hx with h | h
          · exact absurd (h ▸ hpx) hpa
          · exact h
        have ht : t.find? p = some x :=
          ih hax (fun y hy hpy => huniq y (List.mem_cons_of_mem a hy) hpy)
        rw [List.find?_cons_of_neg _ (by simpa using hpa), ht]

theorem markFileDeleted_blobs (st : DB) (fileId ownerId : Nat) :
    (markFileDeleted st fileId ownerId).2.blobs = st.blobs := by
  unfold markFileDeleted
  split <;> rfl

theorem markFileDeleted_shares (st : DB) (fileId ownerId : Nat) :
    (markFileDeleted st fileId ownerId).2.shares = st.shares := by
  unfold markFileDeleted
  split <;> rfl

theorem getFileWithBlob_facts {st : DB} {fileId ownerId : Nat} {fwb : FileRec × Blob}
    (h : getFileWithBlob st fileId ownerId = some fwb) :
    st.files.find? (fun f => f.id == fileId && f.ownerId == ownerId && !f.isDeleted)
      = some fwb.1 ∧
    st.blobs.find? (fun b => b.id == fwb.1.blobId) = some fwb.2 := by
  unfold getFileWithBlob at h
  cases hf : st.files.find? (fun f => f.id == fileId && f.ownerId == ownerId && !f.isDeleted) with
  | none => rw [hf] at h; cases h
  | some f =>
      rw [hf] at h
      dsimp only at h
      cases hb : st.blobs.find? (fun b => b.id == f.blobId) with
      | none => rw [hb] at h; cases h
      | some b =>
          rw [hb] at h
          simp at h
          subst h
          exact ⟨rfl, hb⟩

theorem blobs_find?_id_eq {l : List Blob} (huniq : l.Pairwise (fun a b => a.id ≠ b.id))
    {b : Blob} (hb : b ∈ l) :
    l.find? (fun c => c.id == b.id) = some b := by
  apply find?_eq_some_of_unique hb (by simp)
  intro y hy hpy
  have hid : y.id = b.id := by simpa using hpy
  by_contra hne
  exact (huniq.forall (fun x z hxz => Ne.symm hxz) hy hb hne) hid

/-! ### C1 -/

/-- C1: refuted on the code.  The dedup-usage query sums the *distinct size
values* of the joined blobs (`sum(distinct b.size_bytes)`), not one size per
distinct blob: for owner 7, whose two live files reference two distinct
blobs that both hold 5 bytes, StorageStats reports a dedup usage of 5 where
the claimed semantics (sum over distinct blobs, `dedupUsageSpec`) gives 10;
the original-usage component does match the claim (10). -/
theorem c1_dedupUsage_sums_distinct_sizes_not_blobs :
    storageStats dbTwoBlobsSameSize 7 = (10, 5) ∧
    dedupUsageSpec dbTwoBlobsSameSize 7 = 10 ∧
    (storageStats dbTwoBlobsSameSize 7).2 ≠ dedupUsageSpec dbTwoBlobsSameSize 7 := by
  decide

/-! ### C2 -/

/-- C2: refuted on the code.  When a concurrent insert of the same digest
lands between Upload's lookup (which returned absent) and its catalog
insert, the novel-content branch (service.go lines 85–93) returns the
uniqueness violation to the caller: there is no re-lookup and no fallthrough
to the increment-existing-row branch. -/
theorem c2_duplicate_digest_insert_error_surfaced (hashHex : String) (size : Int)
    (mime : String) (data : List Nat) (st : DB)
    (h : ∃ b ∈ st.blobs, b.sha256 = hashHex) :
    (storeAndInsertBlob hashHex size mime data st).1 = .error .uniqueViolation := by
  obtain ⟨b, hb, hsha⟩ := h
  have hany : (st.blobs.any (fun c => c.sha256 == hashHex)) = true :=
    List.any_eq_true.mpr ⟨b, hb, by simp [hsha]⟩
  unfold storeAndInsertBlob insertBlob storagePut
  simp [hany]

/-- Witness for C2 at a concrete race state: the catalog already holds
digest `"d0"` when the novel-content branch runs for `"d0"`. -/
theorem c2_duplicate_digest_insert_error_surfaced_witness :
    (storeAndInsertBlob "d0" 5 "m" [9] dbRace).1 = .error .uniqueViolation :=
  c2_duplicate_digest_insert_error_surfaced "d0" 5 "m" [9] dbRace
    ⟨blobFx0, by decide, by decide⟩

/-! ### C6 -/

/-- C6: the claim is false at a concrete batch.  Owner quota is 10 bytes;
the batch holds a 3-byte file, a 9-byte file (3 + 9 > 10: quota failure) and
a 2-byte file.  Upload returns a batch-level error — the first file's result
is not returned even though its rows were written, and the third file is
never processed (only `a.txt` exists afterwards). -/
theorem c6_counterexample_quota_failure_aborts_batch :
    (upload hashFx detectFx 0 ownerQuotaFx batchFx emptyDB).1 = .error .quotaExceeded ∧
    ((upload hashFx detectFx 0 ownerQuotaFx batchFx emptyDB).2.files.map
      (fun f => f.filenameOriginal)) = ["a.txt"] := by
  decide

/-- C6 amended: when an input fails the per-file size ceiling or the quota
check, Upload returns an error for the whole batch: the loop stops at the
failing input with the state exactly as the earlier inputs left it (their
catalog effects persist but no results are returned), and later inputs are
not processed. -/
theorem c6_failing_item_aborts_whole_batch (hash detect : List Nat → String)
    (maxUploadBytes : Int) (owner : User) (input : UploadInput)
    (rest : List UploadInput) (originalUsage : Int) (acc : List UploadResult) (st : DB) :
    (maxUploadBytes > 0 → (input.data.length : Int) > maxUploadBytes →
      uploadLoop hash detect maxUploadBytes owner (input :: rest) originalUsage acc st
        = (.error (.fileTooLarge input.filename), st)) ∧
    ((maxUploadBytes > 0 → (input.data.length : Int) ≤ maxUploadBytes) →
      owner.quotaBytes > 0 → originalUsage + (input.data.length : Int) > owner.quotaBytes →
      uploadLoop hash detect maxUploadBytes owner (input :: rest) originalUsage acc st
        = (.error .quotaExceeded, st)) := by
  constructor
  · intro h1 h2
    unfold uploadLoop
    have hc : (decide (maxUploadBytes > 0) &&
        decide (((readAndHash hash detect input.data input.declaredMIME).1.length : Int)
          > maxUploadBytes)) = true := by
      simp [readAndHash, h1, h2]
    simp only [hc, if_true]
  · intro h1 h2 h3
    unfold uploadLoop
    have hc : (decide (maxUploadBytes > 0) &&
        decide (((readAndHash hash detect input.data input.declaredMIME).1.length : Int)
          > maxUploadBytes)) = false := by
      by_cases hm : maxUploadBytes > 0
      · simp [readAndHash, hm]
        omega
      · simp [hm]
    have hq : (decide (owner.quotaBytes > 0) &&
        decide (originalUsage +
          ((readAndHash hash detect input.data input.declaredMIME).1.length : Int)
            > owner.quotaBytes)) = true := by
      simp [readAndHash, h2, h3]
    simp only [hc, hq, Bool.false_eq_true, if_false, if_true]

/-- Witness for the amended C6 at the failing tail of the concrete batch:
running usage 3, quota 10, next input 9 bytes. -/
theorem c6_failing_item_aborts_whole_batch_witness :
    uploadLoop hashFx detectFx 0 ownerQuotaFx
      [{ filename := "b.txt", declaredMIME := "", data := [4, 4, 4, 4, 4, 4, 4, 4, 4] },
       { filename := "c.txt", declaredMIME := "", data := [5, 5] }] 3 [] emptyDB
      = (.error .quotaExceeded, emptyDB) :=
  (c6_failing_item_aborts_whole_batch hashFx detectFx 0 ownerQuotaFx
      { filename := "b.txt", declaredMIME := "", data := [4, 4, 4, 4, 4, 4, 4, 4, 4] }
      [{ filename := "c.txt", declaredMIME := "", data := [5, 5] }] 3 [] emptyDB).2
    (fun h => absurd h (by decide)) (by decide) (by decide)

/-! ### C7 -/

def dbZeroRefAfter : DB :=
  { emptyDB with blobs := [{ blobFx0 with refCount := -1 }], nextId := 1 }

/-- C7: the claim is false at a concrete state.  DecrementBlobRef applied to
a blob whose count is already 0 performs the update as a normal statement
and returns the new count -1 — the count does go negative and nothing
treats it as a fatal condition (no error, no guard; the schema has no check
constraint either). -/
theorem c7_counterexample_decrement_zero_blob_goes_negative :
    decrementBlobRef dbZeroRef 0 = .ok (-1, dbZeroRefAfter) := by
  decide

/-- C7 amended: the decrement itself is an unconditional update (an
already-zero blob is taken to -1 as a normal result), but under the §3
invariant — each blob's count equals the number of live files referencing
it — the decrement DeleteFile performs is only ever applied to a blob with
a positive count (the file being deleted is itself a live reference), so
the resulting count stays ≥ 0. -/
theorem c7_decrement_only_applied_to_positive_count (st : DB) (fileId ownerId : Nat)
    (fwb : FileRec × Blob)
    (hinv : ∀ b ∈ st.blobs,
      b.refCount = ((st.files.filter (fun f => f.blobId == b.id && !f.isDeleted)).length : Int))
    (huniq : st.blobs.Pairwise (fun a b => a.id ≠ b.id))
    (hget : getFileWithBlob st fileId ownerId = some fwb) :
    1 ≤ fwb.2.refCount ∧
    ∃ st2, decrementBlobRef (markFileDeleted st fileId ownerId).2 fwb.2.id
            = .ok (fwb.2.refCount - 1, st2) ∧ 0 ≤ fwb.2.refCount - 1 := by
  obtain ⟨hff, hbf⟩ := getFileWithBlob_facts hget
  have hfmem : fwb.1 ∈ st.files := List.mem_of_find?_eq_some hff
  have hfp := List.find?_some hff
  have hbmem : fwb.2 ∈ st.blobs := List.mem_of_find?_eq_some hbf
  have hbid : fwb.2.id = fwb.1.blobId := by simpa using List.find?_some hbf
  simp only [Bool.and_eq_true, beq_iff_eq, Bool.not_eq_eq_eq_not, Bool.not_true] at hfp
  obtain ⟨⟨hp1, hp2⟩, hp3⟩ := hfp
  have hfin : fwb.1 ∈ st.files.filter (fun f => f.blobId == fwb.2.id && !f.isDeleted) := by
    rw [List.mem_filter]
    refine ⟨hfmem, ?_⟩
    simp [hbid.symm, hp3]
  have hpos : 1 ≤ fwb.2.refCount := by
    have hi := hinv fwb.2 hbmem
    have hl : 0 < (st.files.filter (fun f => f.blobId == fwb.2.id && !f.isDeleted)).length :=
      List.length_pos.mpr (List.ne_nil_of_mem hfin)
    omega
  refine ⟨hpos, ?_⟩
  have hfind : (markFileDeleted st fileId ownerId).2.blobs.find? (fun c => c.id == fwb.2.id)
      = some fwb.2 := by
    rw [markFileDeleted_blobs]
    exact blobs_find?_id_eq huniq hbmem
  unfold decrementBlobRef
  rw [hfind]
  exact ⟨_, rfl, by omega⟩

/-- Witness for the amended C7 at a one-file, one-blob state. -/
theorem c7_decrement_only_applied_to_positive_count_witness :
    1 ≤ (fileFx0, blobFx0).2.refCount ∧
    ∃ st2, decrementBlobRef (markFileDeleted dbOneFile 2 7).2 (fileFx0, blobFx0).2.id
            = .ok ((fileFx0, blobFx0).2.refCount - 1, st2) ∧
          0 ≤ (fileFx0, blobFx0).2.refCount - 1 :=
  c7_decrement_only_applied_to_positive_count dbOneFile 2 7 (fileFx0, blobFx0)
    (by decide) (by decide) (by decide)

/-! ### C8 -/

/-- C8: the claim is false at a concrete state.  After the blob catalog row
has been removed on the zero path, a failing physical-store deletion makes
DeleteFile return an error — not the deleted File the claim promises. -/
theorem c8_counterexample_storage_delete_failure_fails_delete :
    (deleteFile false dbOneFile 2 7).1 = .error .storageDeleteFailed ∧
    (deleteFile false dbOneFile 2 7).1 ≠ .ok (some fileFx0) := by
  decide

/-- C8 amended: on the ref-count-zero path with the catalog row already
deleted, a failing physical-store deletion causes DeleteFile to return an
error instead of the deleted File; the soft-delete and the blob-row removal
persist, and the share cleanup step is skipped (shares unchanged). -/
theorem c8_storage_delete_failure_returns_error (st : DB) (fileId ownerId : Nat)
    (fwb : FileRec × Blob)
    (hget : getFileWithBlob st fileId ownerId = some fwb)
    (huniq : st.blobs.Pairwise (fun a b => a.id ≠ b.id))
    (hlast : fwb.2.refCount ≤ 1) :
    (deleteFile false st fileId ownerId).1 = .error .storageDeleteFailed ∧
    (∀ b ∈ (deleteFile false st fileId ownerId).2.blobs, b.id ≠ fwb.2.id) ∧
    { fwb.1 with isDeleted := true } ∈ (deleteFile false st fileId ownerId).2.files ∧
    (deleteFile false st fileId ownerId).2.shares = st.shares := by
  obtain ⟨hff, hbf⟩ := getFileWithBlob_facts hget
  have hfmem : fwb.1 ∈ st.files := List.mem_of_find?_eq_some hff
  have hfp := List.find?_some hff
  have hbmem : fwb.2 ∈ st.blobs := List.mem_of_find?_eq_some hbf
  have hfind : (markFileDeleted st fileId ownerId).2.blobs.find? (fun c => c.id == fwb.2.id)
      = some fwb.2 := by
    rw [markFileDeleted_blobs]
    exact blobs_find?_id_eq huniq hbmem
  have hle : fwb.2.refCount - 1 ≤ 0 := by omega
  have hshape : deleteFile false st fileId ownerId
      = (.error .storageDeleteFailed,
         deleteBlob
           { (markFileDeleted st fileId ownerId).2 with
               blobs := (markFileDeleted st fileId ownerId).2.blobs.map (fun c =>
                 if c.id == fwb.2.id then { c with refCount := c.refCount - 1 } else c) }
           fwb.2.id) := by
    unfold deleteFile
    rw [hget]
    dsimp only
    unfold decrementBlobRef
    rw [hfind]
    dsimp only
    rw [if_pos hle]
    simp only [Bool.false_eq_true, if_false]
  rw [hshape]
  refine ⟨rfl, ?_, ?_, ?_⟩
  · intro b hb
    have := List.mem_filter.mp hb
    simpa using this.2
  · show { fwb.1 with isDeleted := true } ∈ (markFileDeleted st fileId ownerId).2.files
    unfold markFileDeleted
    rw [hff]
    dsimp only
    refine List.mem_map.mpr ⟨fwb.1, hfmem, ?_⟩
    rw [if_pos hfp]
  · show (markFileDeleted st fileId ownerId).2.shares = st.shares
    exact markFileDeleted_shares st fileId ownerId

/-- Witness for the amended C8 at a one-file, singly-referenced-blob state. -/
theorem c8_storage_delete_failure_returns_error_witness :
    (deleteFile false dbOneFile 2 7).1 = .error .storageDeleteFailed ∧
    (∀ b ∈ (deleteFile false dbOneFile 2 7).2.blobs, b.id ≠ (fileFx0, blobFx0).2.id) ∧
    { (fileFx0, blobFx0).1 with isDeleted := true } ∈ (deleteFile false dbOneFile 2 7).2.files ∧
    (deleteFile false dbOneFile 2 7).2.shares = dbOneFile.shares :=
  c8_storage_delete_failure_returns_error dbOneFile 2 7 (fileFx0, blobFx0)
    (by decide) (by decide) (by decide)

/-! ### C5 -/

/-- C5: with the per-file size ceiling passed, the quota check of Upload
accepts an input of size S against running usage U and quota ceiling Q
exactly when U + S ≤ Q or Q ≤ 0 (a non-positive ceiling is unlimited).  A
rejected input returns the quota error with the state exactly as it was
(stored usage and catalog untouched by the rejected item), and an accepted
input is processed with the loop continuing at running usage U + S. -/
theorem c5_quota_check_accepts_iff (hash detect : List Nat → String) (maxUploadBytes : Int)
    (owner : User) (input : UploadInput) (rest : List UploadInput)
    (usage : Int) (acc : List UploadResult) (st : DB)
    (hsize : maxUploadBytes > 0 → (input.data.length : Int) ≤ maxUploadBytes) :
    (¬ (owner.quotaBytes ≤ 0 ∨ usage + (input.data.length : Int) ≤ owner.quotaBytes) →
      uploadLoop hash detect maxUploadBytes owner (input :: rest) usage acc st
        = (.error .quotaExceeded, st)) ∧
    ((owner.quotaBytes ≤ 0 ∨ usage + (input.data.length : Int) ≤ owner.quotaBytes) →
      uploadLoop hash detect maxUploadBytes owner (input :: rest) usage acc st
        = (match resolveBlob (readAndHash hash detect input.data input.declaredMIME).2.1
              ((readAndHash hash detect input.data input.declaredMIME).1.length : Int)
              (readAndHash hash detect input.data input.declaredMIME).2.2
              (readAndHash hash detect input.data input.declaredMIME).1 st with
           | (.error e, st1) => (.error (.db e), st1)
           | (.ok (blob, isNew), st1) =>
               let record : FileRec :=
                 { id := 0, ownerId := owner.id, blobId := blob.id,
                   filenameOriginal := input.filename,
                   filenameNormalized := lowerStr input.filename,
                   mimeDeclared :=
                     if input.declaredMIME != "" then some input.declaredMIME else none,
                   sizeBytesOriginal := ((readAndHash hash detect input.data input.declaredMIME).1.length : Int),
                   uploadedAt := 0, isDeleted := false, tags := [], downloadCount := 0 }
               let ins := insertFile st1 record
               uploadLoop hash detect maxUploadBytes owner rest
                 (usage + ((readAndHash hash detect input.data input.declaredMIME).1.length : Int))
                 (acc ++ [{ file := ins.1, blob := blob, isNew := isNew }]) ins.2)) := by
  have hc : (decide (maxUploadBytes > 0) &&
      decide (((readAndHash hash detect input.data input.declaredMIME).1.length : Int)
        > maxUploadBytes)) = false := by
    by_cases hm : maxUploadBytes > 0
    · have := hsize hm
      simp [readAndHash, hm]
      omega
    · simp [hm]
  constructor
  · intro hrej
    push_neg at hrej
    have hq : (decide (owner.quotaBytes > 0) &&
        decide (usage +
          ((readAndHash hash detect input.data input.declaredMIME).1.length : Int)
            > owner.quotaBytes)) = true := by
      simp [readAndHash]
      exact ⟨hrej.1, hrej.2⟩
    unfold uploadLoop
    simp only [hc, hq, Bool.false_eq_true, if_false, if_true]
  · intro hacc
    have hq : (decide (owner.quotaBytes > 0) &&
        decide (usage +
          ((readAndHash hash detect input.data input.declaredMIME).1.length : Int)
            > owner.quotaBytes)) = false := by
      rcases hacc with h | h
      · simp [readAndHash]
        intro h2
        omega
      · simp [readAndHash]
        intro _
        omega
    conv_lhs => unfold uploadLoop
    simp only [hc, hq, Bool.false_eq_true, if_false]

theorem uploadLoop_tags_empty (hash detect : List Nat → String) (maxUploadBytes : Int)
    (owner : User) :
    ∀ (inputs : List UploadInput) (usage : Int) (acc : List UploadResult) (st : DB)
      (results : List UploadResult),
      (∀ r ∈ acc, r.file.tags = []) →
      (uploadLoop hash detect maxUploadBytes owner inputs usage acc st).1 = .ok results →
      ∀ r ∈ results, r.file.tags = [] := by
  intro inputs
  induction inputs with
  | nil =>
      intro usage acc st results hacc hok
      unfold uploadLoop at hok
      simp at hok
      subst hok
      exact hacc
  | cons input rest ih =>
      intro usage acc st results hacc hok
      unfold uploadLoop at hok
      dsimp only at hok
      split at hok
      · cases hok
      · split at hok
        · cases hok
        · split at hok
          · cases hok
          · rename_i blob isNew st1 heq
            refine ih _ _ _ _ ?_ hok
            intro r hr
            rcases List.mem_append.mp hr with h | h
            · exact hacc r h
            · simp at h
              subst h
              rfl

theorem files_tags_map_markFileDeleted (st : DB) (fileId ownerId : Nat) :
    (markFileDeleted st fileId ownerId).2.files.map (fun f => f.tags)
      = st.files.map (fun f => f.tags) := by
  unfold markFileDeleted
  split
  · rfl
  · simp only [List.map_map]
    apply List.map_congr_left
    intro g _
    show (if (g.id == fileId && g.ownerId == ownerId && !g.isDeleted) = true then
        { g with isDeleted := true } else g).tags = g.tags
    split <;> rfl

theorem listFiles_tag_filter_excludes_empty_tags (st : DB) (ownerId : Nat) (fl : FileFilter) (h : fl.tags ≠ []) :
    ∀ fb ∈ (listFiles st ownerId (some fl)).1, fb.1.tags ≠ [] := by
  intro fb hfb
  have h1 : fb ∈ sortByKey (fun r1 r2 => r2.1.uploadedAt ≤ r1.1.uploadedAt)
      ((st.files.flatMap (fun f =>
        (st.blobs.filter (fun b => b.id == f.blobId)).map (fun b => (f, b)))).filter
        (fun r => r.1.ownerId == ownerId && !r.1.isDeleted && fileFilterWhere (some fl) r.1 r.2)) := by
    exact List.take_subset _ _ hfb
  have h2 := mem_sortByKey.mp h1
  have h3 := (List.mem_filter.mp h2).2
  simp only [Bool.and_eq_true] at h3
  have hw := h3.2
  unfold fileFilterWhere at hw
  simp only [Bool.and_eq_true, Bool.or_eq_true] at hw
  obtain ⟨⟨⟨⟨⟨⟨hw1, hw2⟩, hw3⟩, hw4⟩, htags⟩, hw6⟩, hw7⟩ := hw
  intro hempty
  rcases htags with he | ha
  · rw [List.isEmpty_iff] at he
    exact h he
  · cases htl : fl.tags with
    | nil => exact h htl
    | cons t ts =>
        rw [htl] at ha
        have := (List.all_eq_true.mp ha) t (List.mem_cons_self t ts)
        rw [hempty] at this
        simp at this

theorem deleteFile_preserves_tags (ok : Bool) (st : DB) (fileId ownerId : Nat) :
    (deleteFile ok st fileId ownerId).2.files.map (fun f => f.tags)
      = st.files.map (fun f => f.tags) := by
  unfold deleteFile
  split
  · rfl
  · rename_i fwb heq
    cases hdec : decrementBlobRef (markFileDeleted st fileId ownerId).2 fwb.2.id with
    | error e =>
        simp only [hdec]
        exact files_tags_map_markFileDeleted st fileId ownerId
    | ok p =>
        simp only [hdec]
        have hfiles : p.2.files = (markFileDeleted st fileId ownerId).2.files := by
          unfold decrementBlobRef at hdec
          cases hfind : (markFileDeleted st fileId ownerId).2.blobs.find?
              (fun b => b.id == fwb.2.id) with
          | none => rw [hfind] at hdec; cases hdec
          | some b =>
              rw [hfind] at hdec
              simp at hdec
              rw [← hdec]
        split
        · split
          · simp only [deleteShare, storageDeleteKey, deleteBlob]
            rw [hfiles]
            exact files_tags_map_markFileDeleted st fileId ownerId
          · simp only [deleteBlob]
            rw [hfiles]
            exact files_tags_map_markFileDeleted st fileId ownerId
        · simp only [deleteShare]
          rw [hfiles]
          exact files_tags_map_markFileDeleted st fileId ownerId


/-- Witness for C5: the rejection arm at usage 3, quota 10, size 9 and the
acceptance arm at usage 3, quota 10, size 2. -/
theorem c5_quota_check_accepts_iff_witness :
    uploadLoop hashFx detectFx 0 ownerQuotaFx
      [{ filename := "b.txt", declaredMIME := "", data := [4, 4, 4, 4, 4, 4, 4, 4, 4] }] 3 [] emptyDB
      = (.error .quotaExceeded, emptyDB) ∧
    (uploadLoop hashFx detectFx 0 ownerQuotaFx
      [{ filename := "c.txt", declaredMIME := "", data := [5, 5] }] 3 [] emptyDB).1.isOk := by
  constructor
  · exact (c5_quota_check_accepts_iff hashFx detectFx 0 ownerQuotaFx
      { filename := "b.txt", declaredMIME := "", data := [4, 4, 4, 4, 4, 4, 4, 4, 4] }
      [] 3 [] emptyDB (fun h => absurd h (by decide))).1 (by decide)
  · decide


/-! ### C10 -/

/-- Result of the one-file fixture upload: one new blob, one file, no tags. -/
def resultsFx : List UploadResult :=
  [{ file := { id := 1, ownerId := 100, blobId := 0, filenameOriginal := "A.txt",
               filenameNormalized := "a.txt", mimeDeclared := none, sizeBytesOriginal := 2,
               uploadedAt := 1, isDeleted := false, tags := [], downloadCount := 0 },
     blob := { id := 0, sha256 := "1.2.", sizeBytes := 2,
               mimeDetected := "application/octet-stream",
               storageKey := "sha256/1./2./1.2.", refCount := 1, createdAt := 0 },
     isNew := true }]

/-- A filter requiring tag `"x"`. -/
def tagFilterFx : FileFilter := { FileFilter.empty with tags := ["x"] }

/-- C10: every File row created by Upload carries the empty tag set (the
upload path hard-codes `Tags: []string{}` and exposes no tag parameter);
DeleteFile — the only core mutation of file rows — never changes any file's
tags; and the owner-listing WHERE clause with a non-empty required tag
subset (`f.tags @> $n`) excludes every empty-tagged file. -/
theorem c10_upload_creates_files_with_empty_tags :
    (∀ (hash detect : List Nat → String) (maxUploadBytes : Int) (owner : User)
       (inputs : List UploadInput) (st : DB) (results : List UploadResult),
       (upload hash detect maxUploadBytes owner inputs st).1 = .ok results →
       ∀ r ∈ results, r.file.tags = []) ∧
    (∀ (st : DB) (ownerId : Nat) (fl : FileFilter), fl.tags ≠ [] →
       ∀ fb ∈ (listFiles st ownerId (some fl)).1, fb.1.tags ≠ []) ∧
    (∀ (ok : Bool) (st : DB) (fileId ownerId : Nat),
       (deleteFile ok st fileId ownerId).2.files.map (fun f => f.tags)
         = st.files.map (fun f => f.tags)) :=
  ⟨fun hash detect maxUploadBytes owner inputs st results hok =>
     uploadLoop_tags_empty hash detect maxUploadBytes owner inputs
       (storageUsage st owner.id).1 [] st results (fun r hr => absurd hr (by simp)) hok,
   listFiles_tag_filter_excludes_empty_tags,
   deleteFile_preserves_tags⟩

/-- Witness for C10: the fixture upload's results all carry empty tags, the
tag filter excludes everything the fixture owner lists, and a concrete
delete leaves every file's tags untouched. -/
theorem c10_upload_creates_files_with_empty_tags_witness :
    (∀ r ∈ resultsFx, r.file.tags = []) ∧
    (∀ fb ∈ (listFiles dbSharesFx 7 (some tagFilterFx)).1, fb.1.tags ≠ []) ∧
    ((deleteFile true dbOneFile 2 7).2.files.map (fun f => f.tags)
       = dbOneFile.files.map (fun f => f.tags)) :=
  ⟨c10_upload_creates_files_with_empty_tags.1 hashFx detectFx 0 ownerFx [inputFx] emptyDB
     resultsFx (by decide),
   c10_upload_creates_files_with_empty_tags.2.1 dbSharesFx 7 tagFilterFx (by decide),
   c10_upload_creates_files_with_empty_tags.2.2 true dbOneFile 2 7⟩


/-! ### C3 and C4 — sequential upload/delete round trips

The two dedup claims are settled by computing the exact state reached by
repeated uploads of one payload from the empty catalog and by the deletions
that follow: `uploadedBlob`/`uploadedFile`/`uploadedObj` are the rows Upload
writes, `uploadStage`/`deleteStage` the states after k uploads and after j
of N deletions, and the step lemmas replay one service call each. -/

/-- The blob Upload creates (and later increments) for `input`: digest of the
payload, size, resolved type, digest-derived key; `rc` is its current count. -/
def uploadedBlob (hash detect : List Nat → String) (input : UploadInput) (rc : Int) : Blob :=
  { id := 0, sha256 := hash input.data,
    sizeBytes := (input.data.length : Int),
    mimeDetected := (readAndHash hash detect input.data input.declaredMIME).2.2,
    storageKey := buildStorageKey (hash input.data),
    refCount := rc, createdAt := 0 }

/-- The file row the n-th upload of `input` inserts (id n, uploaded at c). -/
def uploadedFile (owner : User) (input : UploadInput) (n : Nat) (c : Int) : FileRec :=
  { id := n, ownerId := owner.id, blobId := 0,
    filenameOriginal := input.filename,
    filenameNormalized := lowerStr input.filename,
    mimeDeclared := if input.declaredMIME != "" then some input.declaredMIME else none,
    sizeBytesOriginal := (input.data.length : Int),
    uploadedAt := c, isDeleted := false, tags := [], downloadCount := 0 }

/-- The stored object the first upload of `input` writes. -/
def uploadedObj (hash detect : List Nat → String) (input : UploadInput) : StoredObject :=
  ⟨buildStorageKey (hash input.data), input.data,
   (readAndHash hash detect input.data input.declaredMIME).2.2⟩

theorem upload_first (hash detect : List Nat → String) (owner : User) (input : UploadInput)
    (hq : owner.quotaBytes ≤ 0) :
    upload hash detect 0 owner [input] emptyDB
      = (.ok [{ file := uploadedFile owner input 1 1,
                blob := uploadedBlob hash detect input 1, isNew := true }],
         { users := [], blobs := [uploadedBlob hash detect input 1],
           files := [uploadedFile owner input 1 1], shares := [],
           store := [uploadedObj hash detect input], nextId := 2, clock := 2 }) := by
  have hq0 : decide (owner.quotaBytes > 0) = false := decide_eq_false (by omega)
  unfold upload uploadLoop
  rw [hq0]
  rfl

theorem upload_dup (hash detect : List Nat → String) (owner : User) (input : UploadInput)
    (hq : owner.quotaBytes ≤ 0) (rc : Int) (us : List User) (fs : List FileRec)
    (sh : List Share) (so : List StoredObject) (n : Nat) (c : Int) :
    upload hash detect 0 owner [input]
      { users := us, blobs := [uploadedBlob hash detect input rc], files := fs,
        shares := sh, store := so, nextId := n, clock := c }
      = (.ok [{ file := uploadedFile owner input n c,
                blob := uploadedBlob hash detect input (rc + 1), isNew := false }],
         { users := us, blobs := [uploadedBlob hash detect input (rc + 1)],
           files := fs ++ [uploadedFile owner input n c],
           shares := sh, store := so, nextId := n + 1, clock := c + 1 }) := by
  have hq0 : decide (owner.quotaBytes > 0) = false := decide_eq_false (by omega)
  have hfind : getBlobByHash
      { users := us, blobs := [uploadedBlob hash detect input rc], files := fs,
        shares := sh, store := so, nextId := n, clock := c }
      (readAndHash hash detect input.data input.declaredMIME).2.1
      = some (uploadedBlob hash detect input rc) := by
    simp [getBlobByHash, uploadedBlob, readAndHash, List.find?]
  unfold upload uploadLoop resolveBlob
  rw [hq0]
  simp only [Bool.false_and, Bool.and_eq_true]
  rw [hfind]
  dsimp only [incrementBlobRef, uploadedBlob]
  simp only [beq_self_eq_true, if_pos, List.map]
  rfl


/-- C4: two uploads of byte-identical content (any two owners, any payload):
the first creates the blob with ref_count 1 and isNew true, the second finds
it, returns isNew false and count 2, both file rows reference the same blob
id, and exactly one blob row with that digest exists afterwards. -/
theorem c4_dedup_identity (hash detect : List Nat → String) (owner1 owner2 : User) (input : UploadInput)
    (hq1 : owner1.quotaBytes ≤ 0) (hq2 : owner2.quotaBytes ≤ 0) :
    ∃ r1 r2 st1 st2,
      upload hash detect 0 owner1 [input] emptyDB = (.ok [r1], st1) ∧
      upload hash detect 0 owner2 [input] st1 = (.ok [r2], st2) ∧
      r1.isNew = true ∧ r2.isNew = false ∧
      r1.blob.refCount = 1 ∧ r2.blob.refCount = 2 ∧
      r2.blob.id = r1.blob.id ∧
      r1.file.blobId = r1.blob.id ∧ r2.file.blobId = r1.blob.id ∧
      (st2.blobs.filter (fun b => b.sha256 == hash input.data)).map (fun b => b.refCount)
        = [2] := by
  refine ⟨_, _, _, _, upload_first hash detect owner1 input hq1,
    upload_dup hash detect owner2 input hq2 1 [] [uploadedFile owner1 input 1 1] []
      [uploadedObj hash detect input] 2 2, rfl, rfl, rfl, ?_, rfl, rfl, rfl, ?_⟩
  · norm_num [uploadedBlob]
  · simp [uploadedBlob]

def uploadNTimes (hash detect : List Nat → String) (owner : User) (input : UploadInput) :
    Nat → DB → DB
  | 0, st => st
  | n+1, st => uploadNTimes hash detect owner input n
      ((upload hash detect 0 owner [input] st).2)

def deleteAllFiles (ownerId : Nat) (fileIds : List Nat) (st : DB) : DB :=
  fileIds.foldl (fun s fid => (deleteFile true s fid ownerId).2) st

def stageFiles (owner : User) (input : UploadInput) (N j : Nat) : List FileRec :=
  (List.range N).map (fun i =>
    if i < j then { uploadedFile owner input (i+1) ((i : Int)+1) with isDeleted := true }
    else uploadedFile owner input (i+1) ((i : Int)+1))

def uploadStage (hash detect : List Nat → String) (owner : User) (input : UploadInput)
    (k : Nat) : DB :=
  { users := [], blobs := [uploadedBlob hash detect input (k : Int)],
    files := stageFiles owner input k 0,
    shares := [], store := [uploadedObj hash detect input],
    nextId := k + 1, clock := (k : Int) + 1 }

def deleteStage (hash detect : List Nat → String) (owner : User) (input : UploadInput)
    (N j : Nat) : DB :=
  { users := [],
    blobs := if j < N then [uploadedBlob hash detect input ((N : Int) - (j : Int))] else [],
    files := stageFiles owner input N j,
    shares := [],
    store := if j < N then [uploadedObj hash detect input] else [],
    nextId := N + 1, clock := (N : Int) + 1 }

theorem stageFiles_succ (owner : User) (input : UploadInput) (k : Nat) :
    stageFiles owner input (k+1) 0
      = stageFiles owner input k 0 ++ [uploadedFile owner input (k+1) ((k : Int)+1)] := by
  simp [stageFiles, List.range_succ]

theorem upload_on_stage (hash detect : List Nat → String) (owner : User) (input : UploadInput)
    (hq : owner.quotaBytes ≤ 0) (k : Nat) :
    (upload hash detect 0 owner [input] (uploadStage hash detect owner input k)).2
      = uploadStage hash detect owner input (k+1) := by
  have h := upload_dup hash detect owner input hq (k : Int) [] (stageFiles owner input k 0)
    [] [uploadedObj hash detect input] (k+1) ((k : Int)+1)
  have hst : uploadStage hash detect owner input k
      = { users := [], blobs := [uploadedBlob hash detect input (k : Int)],
          files := stageFiles owner input k 0, shares := [],
          store := [uploadedObj hash detect input], nextId := k + 1, clock := (k : Int) + 1 } := rfl
  rw [hst, h]
  unfold uploadStage
  rw [stageFiles_succ]
  push_cast
  rfl

theorem uploadNTimes_from_stage (hash detect : List Nat → String) (owner : User)
    (input : UploadInput) (hq : owner.quotaBytes ≤ 0) (m : Nat) :
    ∀ k, uploadNTimes hash detect owner input m (uploadStage hash detect owner input k)
      = uploadStage hash detect owner input (k + m) := by
  induction m with
  | zero => intro k; rfl
  | succ m ih =>
      intro k
      show uploadNTimes hash detect owner input m
        ((upload hash detect 0 owner [input] (uploadStage hash detect owner input k)).2)
        = uploadStage hash detect owner input (k + (m + 1))
      rw [upload_on_stage hash detect owner input hq k, ih (k+1)]
      congr 1
      omega

theorem uploadNTimes_emptyDB (hash detect : List Nat → String) (owner : User)
    (input : UploadInput) (hq : owner.quotaBytes ≤ 0) (N : Nat) (hN : 1 ≤ N) :
    uploadNTimes hash detect owner input N emptyDB
      = uploadStage hash detect owner input N := by
  obtain ⟨m, rfl⟩ : ∃ m, N = m + 1 := ⟨N - 1, by omega⟩
  show uploadNTimes hash detect owner input m
    ((upload hash detect 0 owner [input] emptyDB).2)
    = uploadStage hash detect owner input (m + 1)
  rw [upload_first hash detect owner input hq]
  show uploadNTimes hash detect owner input m (uploadStage hash detect owner input 1)
    = uploadStage hash detect owner input (m + 1)
  rw [uploadNTimes_from_stage hash detect owner input hq m 1]
  congr 1
  omega

theorem stageFiles_find? (owner : User) (input : UploadInput) (N j : Nat) (hj : j < N) :
    (stageFiles owner input N j).find?
        (fun f => f.id == j+1 && f.ownerId == owner.id && !f.isDeleted)
      = some (uploadedFile owner input (j+1) ((j : Int)+1)) := by
  apply find?_eq_some_of_unique
  · unfold stageFiles
    refine List.mem_map.mpr ⟨j, List.mem_range.mpr hj, ?_⟩
    simp
  · simp [uploadedFile]
  · intro y hy hpy
    obtain ⟨i, hi, rfl⟩ := List.mem_map.mp hy
    by_cases hij : i < j
    · rw [if_pos hij] at hpy
      simp [uploadedFile] at hpy
    · rw [if_neg hij] at hpy ⊢
      simp [uploadedFile] at hpy
      have : i = j := by omega
      subst this
      rfl

theorem stageFiles_mark (owner : User) (input : UploadInput) (N j : Nat) :
    (stageFiles owner input N j).map (fun g =>
        if g.id == j+1 && g.ownerId == owner.id && !g.isDeleted then
          { g with isDeleted := true } else g)
      = stageFiles owner input N (j+1) := by
  unfold stageFiles
  rw [List.map_map]
  apply List.map_congr_left
  intro i hi
  by_cases hij : i < j
  · have hij1 : i < j + 1 := by omega
    simp only [Function.comp, if_pos hij, if_pos hij1]
    simp [uploadedFile]
  · by_cases hie : i = j
    · subst hie
      have h1 : i < i + 1 := by omega
      simp only [Function.comp, if_neg hij, if_pos h1]
      simp [uploadedFile]
    · have h1 : ¬ i < j + 1 := by omega
      simp only [Function.comp, if_neg hij, if_neg h1]
      simp [uploadedFile, show i + 1 ≠ j + 1 by omega]
      omega

theorem delete_step (hash detect : List Nat → String) (owner : User) (input : UploadInput)
    (N j : Nat) (hj : j < N) :
    deleteFile true (deleteStage hash detect owner input N j) (j+1) owner.id
      = (.ok (some (uploadedFile owner input (j+1) ((j : Int)+1))),
         deleteStage hash detect owner input N (j+1)) := by
  have hblobs : (deleteStage hash detect owner input N j).blobs
      = [uploadedBlob hash detect input ((N : Int) - (j : Int))] := by
    simp [deleteStage, hj]
  have hfindf := stageFiles_find? owner input N j hj
  have hgf : getFileWithBlob (deleteStage hash detect owner input N j) (j+1) owner.id
      = some (uploadedFile owner input (j+1) ((j : Int)+1),
              uploadedBlob hash detect input ((N : Int) - (j : Int))) := by
    unfold getFileWithBlob
    rw [show (deleteStage hash detect owner input N j).files = stageFiles owner input N j
          from rfl, hfindf]
    dsimp only
    rw [hblobs]
    simp [uploadedFile, uploadedBlob]
  have hmark : markFileDeleted (deleteStage hash detect owner input N j) (j+1) owner.id
      = (some (uploadedFile owner input (j+1) ((j : Int)+1)),
         { deleteStage hash detect owner input N j with
             files := stageFiles owner input N (j+1) }) := by
    unfold markFileDeleted
    rw [show (deleteStage hash detect owner input N j).files = stageFiles owner input N j
          from rfl, hfindf]
    dsimp only
    rw [stageFiles_mark]
  have hdec : decrementBlobRef
      { deleteStage hash detect owner input N j with
          files := stageFiles owner input N (j+1) } 0
      = .ok ((N : Int) - (j : Int) - 1,
         { deleteStage hash detect owner input N j with
             files := stageFiles owner input N (j+1),
             blobs := [uploadedBlob hash detect input ((N : Int) - (j : Int) - 1)] }) := by
    unfold decrementBlobRef
    rw [show ({ deleteStage hash detect owner input N j with
          files := stageFiles owner input N (j+1) } : DB).blobs
          = (deleteStage hash detect owner input N j).blobs from rfl, hblobs]
    simp [uploadedBlob]
  unfold deleteFile
  rw [hgf]
  dsimp only
  rw [hmark]
  dsimp only
  rw [show (uploadedBlob hash detect input ((N : Int) - (j : Int))).id = 0 from rfl]
  rw [hdec]
  dsimp only
  by_cases hNj : j + 1 < N
  · rw [if_neg (by omega)]
    unfold deleteShare deleteStage
    simp only [List.filter_nil]
    rw [if_pos hj, if_pos hNj, if_pos hNj]
    have harith : (N : Int) - (j : Int) - 1 = (N : Int) - ((j : Nat) + 1 : Nat) := by
      push_cast
      ring
    rw [harith]
  · have hNe : N = j + 1 := by omega
    rw [if_pos (by omega)]
    unfold deleteBlob storageDeleteKey deleteShare deleteStage
    rw [if_pos hj]
    simp [hNe, uploadedBlob, uploadedObj]

theorem uploadStage_eq_deleteStage0 (hash detect : List Nat → String) (owner : User)
    (input : UploadInput) (N : Nat) (hN : 1 ≤ N) :
    uploadStage hash detect owner input N = deleteStage hash detect owner input N 0 := by
  unfold uploadStage deleteStage
  rw [if_pos (by omega : 0 < N), if_pos (by omega : 0 < N)]
  norm_num

theorem deleteAll_stage (hash detect : List Nat → String) (owner : User) (input : UploadInput)
    (N : Nat) :
    ∀ j, j ≤ N →
      deleteAllFiles owner.id ((List.range j).map (fun i => i + 1))
          (deleteStage hash detect owner input N 0)
        = deleteStage hash detect owner input N j := by
  intro j
  induction j with
  | zero => intro _; rfl
  | succ j ih =>
      intro hle
      have hj : j < N := by omega
      unfold deleteAllFiles at ih ⊢
      rw [List.range_succ, List.map_append, List.foldl_append, ih (by omega)]
      show (deleteFile true (deleteStage hash detect owner input N j) (j+1) owner.id).2
        = deleteStage hash detect owner input N (j+1)
      rw [delete_step hash detect owner input N j hj]

/-- C3: uploading one payload N ≥ 1 times and then deleting all N files
leaves zero blob rows and zero stored bytes; after j < N deletions the one
remaining blob row holds ref count N - j exactly (each deletion decrements
once, and the row plus bytes vanish exactly at count 0). -/
theorem c3_refcount_round_trip (hash detect : List Nat → String) (owner : User) (input : UploadInput)
    (N : Nat) (hN : 1 ≤ N) (hq : owner.quotaBytes ≤ 0) :
    (deleteAllFiles owner.id ((List.range N).map (fun i => i + 1))
        (uploadNTimes hash detect owner input N emptyDB)).blobs = [] ∧
    (deleteAllFiles owner.id ((List.range N).map (fun i => i + 1))
        (uploadNTimes hash detect owner input N emptyDB)).store = [] ∧
    (∀ j, j ≤ N →
      (deleteAllFiles owner.id ((List.range j).map (fun i => i + 1))
          (uploadNTimes hash detect owner input N emptyDB)).blobs.map (fun b => b.refCount)
        = if j < N then [(N : Int) - (j : Int)] else []) := by
  have hup := uploadNTimes_emptyDB hash detect owner input hq N hN
  have hbridge := uploadStage_eq_deleteStage0 hash detect owner input N hN
  refine ⟨?_, ?_, ?_⟩
  · rw [hup, hbridge, deleteAll_stage hash detect owner input N N le_rfl]
    simp [deleteStage]
  · rw [hup, hbridge, deleteAll_stage hash detect owner input N N le_rfl]
    simp [deleteStage]
  · intro j hle
    rw [hup, hbridge, deleteAll_stage hash detect owner input N j hle]
    by_cases h : j < N
    · simp [deleteStage, h, uploadedBlob]
    · simp [deleteStage, h]


/-- Witness for C4 at the fixture owners and payload. -/
theorem c4_dedup_identity_witness :
    ∃ r1 r2 st1 st2,
      upload hashFx detectFx 0 ownerFx [inputFx] emptyDB = (.ok [r1], st1) ∧
      upload hashFx detectFx 0 userFx7 [inputFx] st1 = (.ok [r2], st2) ∧
      r1.isNew = true ∧ r2.isNew = false ∧
      r1.blob.refCount = 1 ∧ r2.blob.refCount = 2 ∧
      r2.blob.id = r1.blob.id ∧
      r1.file.blobId = r1.blob.id ∧ r2.file.blobId = r1.blob.id ∧
      (st2.blobs.filter (fun b => b.sha256 == hashFx inputFx.data)).map (fun b => b.refCount)
        = [2] :=
  c4_dedup_identity hashFx detectFx ownerFx userFx7 inputFx (by decide) (by decide)

/-- Witness for C3 at N = 2 with the fixture owner and payload. -/
theorem c3_refcount_round_trip_witness :
    (deleteAllFiles ownerFx.id ((List.range 2).map (fun i => i + 1))
        (uploadNTimes hashFx detectFx ownerFx inputFx 2 emptyDB)).blobs = [] ∧
    (deleteAllFiles ownerFx.id ((List.range 2).map (fun i => i + 1))
        (uploadNTimes hashFx detectFx ownerFx inputFx 2 emptyDB)).store = [] ∧
    (deleteAllFiles ownerFx.id ((List.range 1).map (fun i => i + 1))
        (uploadNTimes hashFx detectFx ownerFx inputFx 2 emptyDB)).blobs.map
        (fun b => b.refCount)
      = if 1 < 2 then [(2 : Int) - (1 : Int)] else [] :=
  ⟨(c3_refcount_round_trip hashFx detectFx ownerFx inputFx 2 (by decide) (by decide)).1,
   (c3_refcount_round_trip hashFx detectFx ownerFx inputFx 2 (by decide) (by decide)).2.1,
   (c3_refcount_round_trip hashFx detectFx ownerFx inputFx 2 (by decide) (by decide)).2.2 1
     (by decide)⟩

/-! ### C9 -/


theorem publicRows_mem {st : DB} {now : Int} {filter : Option FileFilter}
    {r : Share × FileRec × Blob × User} (h : r ∈ publicRows st now filter) :
    r.1 ∈ st.shares ∧ r.2.1.id = r.1.fileId ∧
    publicWhere now filter r.1 r.2.1 r.2.2.1 r.2.2.2 = true := by
  unfold publicRows at h
  have h1 := List.mem_filter.mp h
  refine ⟨?_, ?_, h1.2⟩ <;> (
    have h2 := h1.1
    simp only [List.mem_flatMap, List.mem_filter, List.mem_map] at h2
    obtain ⟨s, hs, f, ⟨hf, hfid⟩, b, ⟨hb, hbid⟩, u, ⟨hu, huid⟩, heq⟩ := h2
    subst heq)
  · exact hs
  · simpa using hfid

/-- C9: share visibility.  (a) When every share of a file is PRIVATE the
file never appears in the public listing, token or not.  (b) A PUBLIC share
with a non-empty token and a future expiry, over a live file whose owner row
exists, appears in the public listing (stated for the unfiltered listing,
with the page bound not reached).  (c) A share whose expiry is in the past
contributes no public-listing row even though its row still exists, and a
token all of whose shares are expired resolves to none in the token-based
download lookup. -/
theorem c9_share_visibility :
    (∀ (st : DB) (now : Int) (filter : Option FileFilter) (fid : Nat),
      (∀ s ∈ st.shares, s.fileId = fid → s.visibility = "PRIVATE") →
      ∀ fb ∈ (listPublicFiles st now filter).1, fb.1.id ≠ fid) ∧
    (∀ (st : DB) (now : Int) (s : Share) (f : FileRec) (b : Blob) (u : User)
       (tok : String) (t : Int),
      s ∈ st.shares → f ∈ st.files → b ∈ st.blobs → u ∈ st.users →
      f.id = s.fileId → b.id = f.blobId → u.id = f.ownerId →
      s.visibility = "PUBLIC" → s.token = some tok → tok ≠ "" →
      s.expiresAt = some t → now < t → f.isDeleted = false →
      (publicRows st now none).length ≤ 200 →
      (f, b) ∈ (listPublicFiles st now none).1) ∧
    (∀ (st : DB) (now : Int) (filter : Option FileFilter) (s : Share) (t : Int),
      s.expiresAt = some t → t ≤ now →
      s ∉ (publicRows st now filter).map (fun r => r.1)) ∧
    (∀ (st : DB) (now : Int) (tok : String),
      (∀ s ∈ st.shares, s.token = some tok → ∃ t, s.expiresAt = some t ∧ t ≤ now) →
      getFileByShareToken st now tok = none) := by
  refine ⟨?_, ?_, ?_, ?_⟩
  · -- (a) PRIVATE shares never produce a listed file
    intro st now filter fid h fb hfb hid
    unfold listPublicFiles at hfb
    obtain ⟨r, hr, hproj⟩ := List.mem_map.mp hfb
    have hr2 : r ∈ publicRows st now filter :=
      mem_sortByKey.mp (List.take_subset _ _ hr)
    obtain ⟨hs, hfid, hw⟩ := publicRows_mem hr2
    unfold publicWhere at hw
    simp only [Bool.and_eq_true] at hw
    have hpub : r.1.visibility = "PUBLIC" := by
      have := hw.1.1.1.1.2
      simpa using this
    have hrfid : r.1.fileId = fid := by
      rw [← hfid]
      rw [show r.2.1 = fb.1 from congrArg Prod.fst hproj]
      exact hid
    have hpriv := h r.1 hs hrfid
    rw [hpriv] at hpub
    exact absurd hpub (by decide)
  · -- (b) live PUBLIC share with token and future expiry is listed
    intro st now s f b u tok t hs hf hb hu hfid hbid huid hvis htok htokne hexp hnow hlive hlen
    have hrow : (s, f, b, u) ∈ publicRows st now none := by
      unfold publicRows
      rw [List.mem_filter]
      constructor
      · simp only [List.mem_flatMap, List.mem_filter, List.mem_map]
        exact ⟨s, hs, f, ⟨hf, by simp [hfid]⟩, b, ⟨hb, by simp [hbid]⟩, u, ⟨hu, by simp [huid]⟩, rfl⟩
      · unfold publicWhere fileFilterWhere uploaderWhere
        simp [hvis, htok, htokne, hexp, hnow, hlive]
    unfold listPublicFiles
    refine List.mem_map.mpr ⟨(s, f, b, u), ?_, rfl⟩
    rw [List.take_of_length_le]
    · exact mem_sortByKey.mpr hrow
    · rw [length_sortByKey]
      exact hlen
  · -- (c1) an expired share contributes no public row
    intro st now filter s t hexp hle hmem
    obtain ⟨r, hr, hproj⟩ := List.mem_map.mp hmem
    obtain ⟨_, _, hw⟩ := publicRows_mem hr
    unfold publicWhere at hw
    simp only [Bool.and_eq_true] at hw
    have hexpw := hw.1.1.1.2
    rw [hproj, hexp] at hexpw
    simp at hexpw
    omega
  · -- (c2) a token all of whose shares are expired resolves to none
    intro st now tok h
    unfold getFileByShareToken
    rw [List.find?_eq_none.mpr]
    · rfl
    · intro r hr
      simp only [List.mem_flatMap, List.mem_filter, List.mem_map] at hr
      obtain ⟨s, hs, f, ⟨hf, hfid⟩, b, ⟨hb, hbid⟩, heq⟩ := hr
      subst heq
      simp only [Bool.and_eq_true, Bool.not_eq_true]
      intro hcontra
      rcases htk : s.token with _ | tk
      · rw [htk] at hcontra
        simp at hcontra
      · rw [htk] at hcontra
        simp only [beq_iff_eq] at hcontra
        by_cases htkeq : tk = tok
        · subst htkeq
          obtain ⟨te, hte, htle⟩ := h s hs htk
          rw [hte] at hcontra
          simp at hcontra
          omega
        · simp [htkeq] at hcontra


/-- Witness for C9 at the fixture catalog: file 2 has only a PRIVATE share
and is never listed; the PUBLIC share of file 3 (token `"tok2"`, expiry 50)
is listed at time 40; at time 60 it yields no public row and its token
resolves to none. -/
theorem c9_share_visibility_witness :
    (∀ fb ∈ (listPublicFiles dbSharesFx 40 none).1, fb.1.id ≠ 2) ∧
    (fileFx1, blobFx1) ∈ (listPublicFiles dbSharesFx 40 none).1 ∧
    sharePubFx ∉ (publicRows dbSharesFx 60 none).map (fun r => r.1) ∧
    getFileByShareToken dbSharesFx 60 "tok2" = none :=
  ⟨c9_share_visibility.1 dbSharesFx 40 none 2 (by decide),
   c9_share_visibility.2.1 dbSharesFx 40 sharePubFx fileFx1 blobFx1 userFx7 "tok2" 50
     (by decide) (by decide) (by decide) (by decide) (by decide) (by decide) (by decide)
     (by decide) (by decide) (by decide) (by decide) (by decide) (by decide) (by decide),
   c9_share_visibility.2.2.1 dbSharesFx 60 none sharePubFx 50 (by decide) (by decide),
   c9_share_visibility.2.2.2 dbSharesFx 60 "tok2" (by
     intro s hs htok
     simp only [dbSharesFx, List.mem_cons, List.not_mem_nil, or_false] at hs
     rcases hs with rfl | rfl
     · exact absurd htok (by decide)
     · exact ⟨50, rfl, by decide⟩)⟩

end Vault
